import Mathlib

/-!
Verification of the address-book program (`address_book.py`).

The development shallowly embeds the data model of the program and operations:

* `Date` replaces Python `datetime.date` / the date part of `datetime`;
  machine dates are triples of naturals, compared lexicographically as in
  Python, with `timedelta` addition modelled by iterating the calendar
  successor `nextDay`.
* `mkPhone` embeds `Phone.__init__`, `mkBirthday` embeds
  `Birthday.__init__` (its `datetime.strptime(value, "%d.%m.%Y")` call is
  modelled by `parseDMY`, following the CPython `_strptime` regular
  expression semantics for the directives `%d`, `%m`, `%Y`).
* `Rec` embeds `Record`; its mutating operations return the post-state,
  paired with the raised error message when field construction fails.
* `Book` embeds `AddressBook` (a `UserDict`); the underlying `dict` is an
  insertion-ordered association list with the assignment semantics of a Python dict.
* `getUpcomingBirthdays` embeds `AddressBook.get_upcoming_birthdays`.
  The method reads `datetime.today()` from the ambient clock; purity of
  the embedding makes that read an explicit argument `today`.  Failures
  (`ValueError` escaping from `date.replace`) are modelled with `Except`.

Strings are Lean strings (lists of Unicode characters), matching Python
strings.  Python string builtins used by the source are modelled on the
character ranges exercised by this development (see `pyIsDigit`).
-/

deriving instance DecidableEq for Except

/-- A calendar date, as the triple (year, month, day); embeds the value
carried by a Python `datetime.date` (and the date part of a `datetime`). -/
structure Date where
  year : Nat
  month : Nat
  day : Nat
deriving DecidableEq

/-- Gregorian leap-year test, as used by `calendar.isleap` / `datetime`. -/
def isLeapYear (y : Nat) : Bool :=
  y % 4 == 0 && (y % 100 != 0 || y % 400 == 0)

/-- Number of days in a month of a given year (Gregorian). -/
def daysInMonth (y m : Nat) : Nat :=
  if m = 2 then (if isLeapYear y then 29 else 28)
  else if m = 4 || m = 6 || m = 9 || m = 11 then 30
  else 31

/-- Validity of a (year, month, day) triple for the Python `datetime`
constructor: `MINYEAR = 1 <= year <= MAXYEAR = 9999`, `1 <= month <= 12`,
`1 <= day <= days in that month`. -/
def validDate (y m d : Nat) : Bool :=
  1 ≤ y && y ≤ 9999 && 1 ≤ m && m ≤ 12 && 1 ≤ d && d ≤ daysInMonth y m

/-- Well-formedness of a `Date` used for calendar arithmetic: like
`validDate` but without the `MAXYEAR` bound (so that the calendar
successor is total on well-formed dates). -/
def dateOk (d : Date) : Bool :=
  1 ≤ d.year && 1 ≤ d.month && d.month ≤ 12 && 1 ≤ d.day &&
    d.day ≤ daysInMonth d.year d.month

/-- The Python comparison `a <= b` on `datetime.date`: lexicographic on
(year, month, day). -/
def dateLE (a b : Date) : Bool :=
  a.year < b.year ||
    (a.year == b.year &&
      (a.month < b.month || (a.month == b.month && a.day ≤ b.day)))

/-- Calendar successor: the next day, rolling over months and years. -/
def nextDay (d : Date) : Date :=
  if d.day < daysInMonth d.year d.month then ⟨d.year, d.month, d.day + 1⟩
  else if d.month < 12 then ⟨d.year, d.month + 1, 1⟩
  else ⟨d.year + 1, 1, 1⟩

/-- The function `addDays d n` embeds the Python expression `d + timedelta(days=n)` for `n ≥ 0`. -/
def addDays (d : Date) : Nat → Date
  | 0 => d
  | n + 1 => nextDay (addDays d n)

/-- Days in year `y` strictly before month `m`. -/
def daysBeforeMonth (y m : Nat) : Nat :=
  (List.range (m - 1)).foldl (fun acc i => acc + daysInMonth y (i + 1)) 0

/-- Proleptic-Gregorian day number of a date (0001-01-01 is day 1);
the Python method `date.toordinal`. -/
def toRataDie (d : Date) : Nat :=
  365 * (d.year - 1) + (d.year - 1) / 4 + (d.year - 1) / 400
    - (d.year - 1) / 100 + daysBeforeMonth d.year d.month + d.day

/-- The Python method `date.weekday()`: Monday = 0, ..., Sunday = 6.
0001-01-01 (day number 1) was a Monday in the proleptic Gregorian
calendar. -/
def weekday (d : Date) : Nat :=
  (toRataDie d + 6) % 7

/-- The Python method `date.replace(year=y)`: keep month and day, substitute the
year; raises `ValueError` when the resulting triple is not a valid date
(e.g. February 29 mapped into a non-leap year). -/
def replaceYear (d : Date) (y : Nat) : Except String Date :=
  if validDate y d.month d.day then Except.ok ⟨y, d.month, d.day⟩
  else Except.error "day is out of range for month"

/-- Models the character test of the Python method `str.isdigit`.  Python accepts
every Unicode character of Numeric_Type Digit or Decimal; this model
covers the ASCII digits together with the Arabic-Indic decimal digits
U+0660 - U+0669 and the superscript digits U+00B9, U+00B2, U+00B3, which
is faithful for every character handled in this development (the
remaining Unicode digit blocks behave like the Arabic-Indic one and are
elided). -/
def pyIsDigit (c : Char) : Bool :=
  c.isDigit || (0x660 ≤ c.toNat && c.toNat ≤ 0x669) ||
    c == '¹' || c == '²' || c == '³'

/-- The Python expression `s.isdigit()`: non-empty and every character a digit. -/
def pyStrIsDigit (s : String) : Bool :=
  !s.data.isEmpty && s.data.all pyIsDigit

/-- Embeds `Phone.__init__` (address_book.py lines 35-38): raise
`ValueError("Phone number must be exactly 10 digits.")` unless
`value.isdigit() and len(value) == 10`; otherwise store `value`
verbatim. -/
def mkPhone (value : String) : Except String String :=
  if !pyStrIsDigit value || value.length ≠ 10 then
    Except.error "Phone number must be exactly 10 digits."
  else Except.ok value

/-- Numeric value of an ASCII digit character. -/
def digitVal (c : Char) : Nat := c.toNat - 48

/-- Decimal value of a run of ASCII digit characters (most significant
first). -/
def digitsVal (l : List Char) : Nat :=
  l.foldl (fun acc c => 10 * acc + digitVal c) 0

/-- Embeds the `_strptime` matching of the directives `%d` (day, regex
`3[01]|[12]\d|0[1-9]|[1-9]`) and `%m` (month, regex
`1[0-2]|0[1-9]|[1-9]`): the maximal leading run of digits must have
length 1 or 2 and value between 1 and `hi` (31 for `%d`, 12 for `%m`);
returns the value and the unconsumed input. -/
def parseNum2 (hi : Nat) (l : List Char) : Option (Nat × List Char) :=
  let run := l.takeWhile Char.isDigit
  let rest := l.dropWhile Char.isDigit
  if run.length = 1 || run.length = 2 then
    let v := digitsVal run
    if 1 ≤ v && v ≤ hi then some (v, rest) else none
  else none

/-- Embeds `_strptime` matching of `%Y` (regex `\d\d\d\d`) at the end of
the format: exactly four digits and nothing after them (trailing text
raises "unconverted data remains"). -/
def parseYear4 : List Char → Option Nat
  | [a, b, c, d] =>
    if a.isDigit && b.isDigit && c.isDigit && d.isDigit then
      some (digitsVal [a, b, c, d])
    else none
  | _ => none

/-- Embeds `datetime.strptime(s, "%d.%m.%Y")` up to (but not including)
the construction of the `datetime` object: day, literal dot, month,
literal dot, four-digit year, end of string.  Returns (day, month, year).
In the `_strptime` regexes, `\d` is modelled as an ASCII digit (the Python
`re` additionally admits non-ASCII Unicode decimal digits; ASCII inputs
are treated faithfully). -/
def parseDMY (s : String) : Option (Nat × Nat × Nat) :=
  match parseNum2 31 s.data with
  | none => none
  | some (d, rest1) =>
    match rest1 with
    | [] => none
    | c1 :: rest2 =>
      if c1 = '.' then
        match parseNum2 12 rest2 with
        | none => none
        | some (m, rest3) =>
          match rest3 with
          | [] => none
          | c2 :: rest4 =>
            if c2 = '.' then
              match parseYear4 rest4 with
              | none => none
              | some y => some (d, m, y)
            else none
      else none

/-- Embeds `Birthday.__init__` (address_book.py lines 52-57):
`datetime.strptime(value, "%d.%m.%Y")` stores the parsed date; any
`ValueError` (regex mismatch, or an invalid calendar triple such as
31.04 or year 0000 rejected by the `datetime` constructor) is re-raised
as `ValueError("Invalid date format. Use DD.MM.YYYY")`. -/
def mkBirthday (value : String) : Except String Date :=
  match parseDMY value with
  | some (d, m, y) =>
    if validDate y m d then Except.ok ⟨y, m, d⟩
    else Except.error "Invalid date format. Use DD.MM.YYYY"
  | none => Except.error "Invalid date format. Use DD.MM.YYYY"

/-- ASCII digit character for `n < 10`. -/
def digitChar (n : Nat) : Char := Char.ofNat (48 + n)

/-- Two zero-padded decimal digits, for `n < 100`: the strftime
directives `%d` and `%m`. -/
def pad2 (n : Nat) : List Char :=
  [digitChar (n / 10), digitChar (n % 10)]

/-- The strftime directive `%Y` as rendered by glibc: the year in decimal
without zero padding.  Total model for `y ≤ 9999`, which covers every
year a `datetime` can hold. -/
def yearChars (y : Nat) : List Char :=
  if y < 10 then [digitChar y]
  else if y < 100 then [digitChar (y / 10), digitChar (y % 10)]
  else if y < 1000 then
    [digitChar (y / 100), digitChar (y / 10 % 10), digitChar (y % 10)]
  else
    [digitChar (y / 1000), digitChar (y / 100 % 10), digitChar (y / 10 % 10),
      digitChar (y % 10)]

/-- Embeds `d.strftime("%d.%m.%Y")`: zero-padded day and month, dot
separators, unpadded year (glibc `%Y`). -/
def renderDMY (d : Date) : String :=
  ⟨pad2 d.day ++ '.' :: pad2 d.month ++ '.' :: yearChars d.year⟩

/-- Embeds `Record`: a name, a list of phone values (the strings held by
the `Phone` objects; `edit_phone` can store arbitrary strings there), and
an optional birthday date. -/
structure Rec where
  name : String
  phones : List String
  birthday : Option Date
deriving DecidableEq

/-- Embeds `Record.__init__(name)`: empty phone list, no birthday. -/
def mkRecord (name : String) : Rec := ⟨name, [], none⟩

/-- Embeds `Record.add_phone` (lines 74-81): `Phone(phone)` is
constructed first; if construction raises, the record is not touched and
the error propagates, otherwise the new phone is appended.  Returns the
post-state and the raised message, if any. -/
def addPhoneState (r : Rec) (phone : String) : Rec × Option String :=
  match mkPhone phone with
  | Except.error e => (r, some e)
  | Except.ok p => ({ r with phones := r.phones ++ [p] }, none)

/-- Embeds `Record.remove_phone` (line 90). -/
def removePhone (r : Rec) (phone : String) : Rec :=
  { r with phones := r.phones.filter (fun p => p ≠ phone) }

/-- Embeds `Record.edit_phone` (lines 92-102): every phone whose value
equals `old_phone` gets its value overwritten with `new_phone`; no
validation of `new_phone` happens. -/
def editPhone (r : Rec) (old_phone new_phone : String) : Rec :=
  { r with
    phones := r.phones.map (fun p => if p = old_phone then new_phone else p) }

/-- Embeds `Record.find_phone` (lines 104-117). -/
def findPhone (r : Rec) (phone : String) : Option String :=
  r.phones.find? (fun p => p == phone)

/-- Embeds `Record.add_birthday` (lines 119-123): `Birthday(birthday)` is
constructed first; if construction raises, the record is not touched and
the error propagates, otherwise the birthday field is replaced. -/
def addBirthdayState (r : Rec) (birthday : String) : Rec × Option String :=
  match mkBirthday birthday with
  | Except.error e => (r, some e)
  | Except.ok b => ({ r with birthday := some b }, none)

/-- Embeds `Record.get_birthday` (lines 125-131): the stored date
rendered with `strftime("%d.%m.%Y")`, or `None`. -/
def getBirthday (r : Rec) : Option String :=
  r.birthday.map renderDMY

/-- Embeds `AddressBook`: the `UserDict` data, as an insertion-ordered
association list with unique keys (Python `dict` semantics). -/
structure Book where
  data : List (String × Rec)
deriving DecidableEq

/-- Python `dict` assignment `data[k] = v`: overwrite in place if the key
is present, else append at the end. -/
def dictSet (l : List (String × Rec)) (k : String) (v : Rec) :
    List (String × Rec) :=
  if l.any (fun p => p.1 = k) then
    l.map (fun p => if p.1 = k then (k, v) else p)
  else l ++ [(k, v)]

/-- Embeds `AddressBook.add_record` (lines 148-155):
`self.data[record.name.value] = record`. -/
def addRecord (b : Book) (r : Rec) : Book :=
  ⟨dictSet b.data r.name r⟩

/-- Embeds `AddressBook.find` (lines 157-167): `self.data.get(name)`. -/
def findRecord (b : Book) (name : String) : Option Rec :=
  (b.data.find? (fun p => p.1 == name)).map (fun p => p.2)

/-- Embeds `AddressBook.delete` (lines 169-177): remove the entry with
that key, if present. -/
def deleteRecord (b : Book) (name : String) : Book :=
  ⟨b.data.filter (fun p => p.1 ≠ name)⟩

/-- A result row of `get_upcoming_birthdays`: the dict
`{"name": ..., "congratulation_date": ...}`. -/
structure Entry where
  name : String
  congratulation_date : String
deriving DecidableEq

/-- The body of the `get_upcoming_birthdays` loop (lines 190-202) for one
record: skip records without a birthday; substitute the current year into
the stored date (`date.replace(year=...)`, which can raise); keep the
occurrence when `date_today <= occurrence <= date_today + timedelta(days=7)`;
shift a Saturday (weekday 5) or Sunday (weekday 6) occurrence forward by
`7 - weekday` days; render with `strftime("%d.%m.%Y")`. -/
def processRecord (today : Date) (r : Rec) : Except String (Option Entry) :=
  match r.birthday with
  | none => Except.ok none
  | some b =>
    match replaceYear b today.year with
    | Except.error e => Except.error e
    | Except.ok occ =>
      if dateLE today occ && dateLE occ (addDays today 7) then
        let occ2 :=
          if weekday occ == 5 || weekday occ == 6 then
            addDays occ (7 - weekday occ)
          else occ
        Except.ok (some ⟨r.name, renderDMY occ2⟩)
      else Except.ok none

/-- The `get_upcoming_birthdays` loop over `self.data.values()` in
insertion order; an exception escaping from any iteration aborts the
whole call, discarding the partial list. -/
def collectBirthdays (today : Date) : List (String × Rec) →
    Except String (List Entry)
  | [] => Except.ok []
  | (_, r) :: rest =>
    match processRecord today r with
    | Except.error e => Except.error e
    | Except.ok none => collectBirthdays today rest
    | Except.ok (some entry) =>
      match collectBirthdays today rest with
      | Except.error e => Except.error e
      | Except.ok l => Except.ok (entry :: l)

/-- Embeds `AddressBook.get_upcoming_birthdays` (lines 179-203).  The
method takes no parameter in the source: `date_today` is read from the
ambient clock by `datetime.today().date()`; purity of the embedding turns
that ambient read into the explicit argument `today`. -/
def getUpcomingBirthdays (b : Book) (today : Date) :
    Except String (List Entry) :=
  collectBirthdays today b.data

/-- Directory states reachable from the empty `AddressBook` through the
public operations.  `add_record` and `delete` are the two mutators;
`find` reads the mapping without changing it, so it contributes no
transition. -/
inductive Reachable : Book → Prop where
  | empty : Reachable ⟨[]⟩
  | add : ∀ (b : Book) (r : Rec), Reachable b → Reachable (addRecord b r)
  | del : ∀ (b : Book) (n : String), Reachable b → Reachable (deleteRecord b n)

/-- Stated from the words of the specification, for comparison with the
parser embedded from the source: the string consists of a day field, a
dot, a month field, a dot and a year field, where the day and month
fields are one or two ASCII digits, the year field is exactly four ASCII
digits, and the fields denote the values `d`, `m`, `y`. -/
def isDMYtext (s : String) (d m y : Nat) : Prop :=
  ∃ dcs mcs ycs : List Char,
    s.data = dcs ++ '.' :: mcs ++ '.' :: ycs ∧
    dcs.all Char.isDigit = true ∧ mcs.all Char.isDigit = true ∧
    ycs.all Char.isDigit = true ∧
    (dcs.length = 1 ∨ dcs.length = 2) ∧ (mcs.length = 1 ∨ mcs.length = 2) ∧
    ycs.length = 4 ∧
    digitsVal dcs = d ∧ digitsVal mcs = m ∧ digitsVal ycs = y

/-! ## Theorems -/

/-- C1: evaluation of the code at a failing input.  With today =
2024-06-10 (a Monday) and a contact whose birthday occurs this year on
2024-06-17 = today + 7 days, the claimed window `today <= occurrence <=
today + 6 days` excludes the occurrence, yet `get_upcoming_birthdays`
returns the contact: the comparison in the source is against
`date_today + timedelta(days=7)`, an eight-day inclusive window, contrary
to the docstring of the method ("birthdays in the next 7 days, including
today"). -/
theorem upcoming_includes_today_plus_seven :
    addDays ⟨2024, 6, 10⟩ 7 = ⟨2024, 6, 17⟩ ∧
    dateLE ⟨2024, 6, 17⟩ (addDays ⟨2024, 6, 10⟩ 6) = false ∧
    getUpcomingBirthdays ⟨[("Alice", ⟨"Alice", [], some ⟨1985, 6, 17⟩⟩)]⟩
        ⟨2024, 6, 10⟩ =
      Except.ok [⟨"Alice", "17.06.2024"⟩] := by
  decide

/-- C3 counterexample: the string of ten Arabic-Indic digits U+0660 is
accepted by `Phone.__init__` (it passes `isdigit()` and has length 10),
although none of its characters is an ASCII decimal digit; the claim
that construction succeeds only for ASCII-digit strings is false. -/
theorem phone_nonascii_digits_accepted :
    mkPhone "٠٠٠٠٠٠٠٠٠٠" = Except.ok "٠٠٠٠٠٠٠٠٠٠" ∧
    "٠٠٠٠٠٠٠٠٠٠".data.all Char.isDigit = false ∧
    "٠٠٠٠٠٠٠٠٠٠".length = 10 := by
  decide

/-- C3 (amended): constructing a Phone from `s` succeeds with the value
stored verbatim if and only if `s` has exactly 10 characters, each
accepted by the Python `str.isdigit` test (a superset of the ASCII
decimal digits); on every other input it fails with the message
"Phone number must be exactly 10 digits.". -/
theorem phone_validation_characterization (s : String) :
    (mkPhone s = Except.ok s ↔
      (s.length = 10 ∧ s.data.all pyIsDigit = true)) ∧
    (¬(s.length = 10 ∧ s.data.all pyIsDigit = true) →
      mkPhone s = Except.error "Phone number must be exactly 10 digits.") := by
  have hlen : s.length = s.data.length := rfl
  by_cases h10 : s.length = 10
  · by_cases hall : s.data.all pyIsDigit = true
    · have hne : s.data.isEmpty = false := by
        cases hd : s.data with
        | nil => rw [hlen, hd] at h10; simp at h10
        | cons a l => simp
      simp [mkPhone, pyStrIsDigit, h10, hall, hne]
    · simp [mkPhone, pyStrIsDigit, h10, hall]
  · simp [mkPhone, pyStrIsDigit, h10]

/-- C3 witness: the amended characterization applied at a valid phone
string and at a short one. -/
theorem phone_validation_characterization_witness :
    mkPhone "0123456789" = Except.ok "0123456789" ∧
    mkPhone "12345" = Except.error "Phone number must be exactly 10 digits." :=
  ⟨(phone_validation_characterization "0123456789").1.mpr (by decide),
   (phone_validation_characterization "12345").2 (by decide)⟩

/-- C4 counterexample: "5.6.1985" is not in two-digit-day DD.MM.YYYY
form (it has 8 characters, not 10), yet `Birthday.__init__` accepts it:
the `_strptime` regexes for `%d` and `%m` also match single-digit day
and month fields. -/
theorem birthday_single_digit_day_accepted :
    mkBirthday "5.6.1985" = Except.ok ⟨1985, 6, 5⟩ ∧
    "5.6.1985".length = 8 := by
  decide

/-- C5 counterexample: "01.01.0005" is a canonical DD.MM.YYYY string
(two-digit day and month, four-digit year) for the valid date
0005-01-01, but after `add_birthday` the getter renders the year
without zero padding (glibc `%Y`), so the round trip returns
"01.01.5", not the original string. -/
theorem birthday_roundtrip_fails_for_padded_small_year :
    mkBirthday "01.01.0005" = Except.ok ⟨5, 1, 1⟩ ∧
    getBirthday (addBirthdayState (mkRecord "Alice") "01.01.0005").1 =
      some "01.01.5" ∧
    "01.01.5" ≠ "01.01.0005" := by
  decide

/-- C7 counterexample: `get_upcoming_birthdays` takes no date parameter;
`date_today` is read from the ambient clock (`datetime.today()`), which
the embedding exposes as the `today` argument.  On the same directory,
two invocations at different ambient dates return different results, so
the result is not determined by the directory contents alone and the
ambient clock is read. -/
theorem upcoming_depends_on_ambient_date :
    getUpcomingBirthdays ⟨[("Alice", ⟨"Alice", [], some ⟨1985, 6, 15⟩⟩)]⟩
        ⟨2024, 6, 10⟩ =
      Except.ok [⟨"Alice", "17.06.2024"⟩] ∧
    getUpcomingBirthdays ⟨[("Alice", ⟨"Alice", [], some ⟨1985, 6, 15⟩⟩)]⟩
        ⟨2024, 1, 1⟩ =
      Except.ok [] := by
  decide

/-- C8: when `Phone(phone)` or `Birthday(birthday)` raises during
`add_phone` / `add_birthday`, the exception fires before any assignment,
so the record keeps exactly its prior phones and birthday: a failed
mutating operation is never partially applied. -/
theorem failed_add_leaves_record_unchanged (r : Rec) (s : String) :
    ((addPhoneState r s).2.isSome = true → (addPhoneState r s).1 = r) ∧
    ((addBirthdayState r s).2.isSome = true → (addBirthdayState r s).1 = r) := by
  constructor
  · cases h : mkPhone s <;> simp [addPhoneState, h]
  · cases h : mkBirthday s <;> simp [addBirthdayState, h]

/-- C8 witness: a record is left unchanged by a failing `add_phone` and
a failing `add_birthday` at the concrete invalid input "abc". -/
theorem failed_add_leaves_record_unchanged_witness :
    (addPhoneState ⟨"Alice", ["1234567890"], some ⟨1990, 1, 1⟩⟩ "abc").1 =
      ⟨"Alice", ["1234567890"], some ⟨1990, 1, 1⟩⟩ ∧
    (addBirthdayState ⟨"Alice", ["1234567890"], some ⟨1990, 1, 1⟩⟩ "abc").1 =
      ⟨"Alice", ["1234567890"], some ⟨1990, 1, 1⟩⟩ :=
  ⟨(failed_add_leaves_record_unchanged _ "abc").1 (by decide),
   (failed_add_leaves_record_unchanged _ "abc").2 (by decide)⟩

/-- Substituting a non-leap year into February 29 makes `date.replace`
raise `ValueError("day is out of range for month")`, which
`get_upcoming_birthdays` does not catch. -/
theorem processRecord_feb29_error (today : Date) (r : Rec) (y0 : Nat)
    (hb : r.birthday = some ⟨y0, 2, 29⟩)
    (hl : isLeapYear today.year = false) :
    processRecord today r = Except.error "day is out of range for month" := by
  unfold processRecord
  rw [hb]
  have hv : validDate today.year 2 29 = false := by
    simp [validDate, daysInMonth, hl]
  simp [replaceYear, hv]

/-- C10: if any record has a February 29 birthday and the current year is
not a leap year, the whole `get_upcoming_birthdays` call raises
`ValueError` and produces no results, instead of skipping that contact. -/
theorem feb29_nonleap_year_fails_whole_query (b : Book) (today : Date)
    (h : ∃ k r, (k, r) ∈ b.data ∧ ∃ y0, r.birthday = some ⟨y0, 2, 29⟩)
    (hl : isLeapYear today.year = false) :
    ∃ e, getUpcomingBirthdays b today = Except.error e := by
  unfold getUpcomingBirthdays
  obtain ⟨l⟩ := b
  induction l with
  | nil => simp at h
  | cons hd tl ih =>
    obtain ⟨k, r⟩ := hd
    obtain ⟨pk, pr, hp, y0, hpb⟩ := h
    rcases List.mem_cons.mp hp with heq | hmem
    · rw [Prod.mk.injEq] at heq
      have hrb : r.birthday = some ⟨y0, 2, 29⟩ := heq.2 ▸ hpb
      exact ⟨"day is out of range for month", by
        simp [collectBirthdays,
          processRecord_feb29_error today r y0 hrb hl]⟩
    · obtain ⟨e, he⟩ := ih ⟨pk, pr, hmem, y0, hpb⟩
      cases hpr : processRecord today r with
      | error e2 => exact ⟨e2, by simp [collectBirthdays, hpr]⟩
      | ok o =>
        cases o with
        | none => exact ⟨e, by simp [collectBirthdays, hpr, he]⟩
        | some entry => exact ⟨e, by simp [collectBirthdays, hpr, he]⟩

/-- C10 witness: a single contact with birthday 29.02.2020 queried in the
non-leap year 2023 makes the whole query fail. -/
theorem feb29_nonleap_year_fails_whole_query_witness :
    ∃ e, getUpcomingBirthdays ⟨[("Bob", ⟨"Bob", [], some ⟨2020, 2, 29⟩⟩)]⟩
        ⟨2023, 2, 25⟩ = Except.error e :=
  feb29_nonleap_year_fails_whole_query _ _
    ⟨"Bob", ⟨"Bob", [], some ⟨2020, 2, 29⟩⟩, by simp, 2020, rfl⟩
    (by decide)

/-- C6: `edit_phone(old, new)` overwrites, in place, the value of every
phone equal to `old` with `new` (with no validation of `new`), leaves
every other phone and the phone count unchanged, and is a no-op when no
phone equals `old`.  The per-index form states that position `i` holds
`new` exactly when it held `old`, and its old value otherwise. -/
theorem edit_phone_replaces_matching (r : Rec) (old new : String) :
    (editPhone r old new).name = r.name ∧
    (editPhone r old new).birthday = r.birthday ∧
    (editPhone r old new).phones.length = r.phones.length ∧
    (∀ i : Nat, (editPhone r old new).phones[i]? =
      (r.phones[i]?).map (fun p => if p = old then new else p)) ∧
    (old ∉ r.phones → editPhone r old new = r) := by
  refine ⟨rfl, rfl, by simp [editPhone], ?_, ?_⟩
  · intro i
    simp [editPhone]
  · intro hmem
    have hmap : r.phones.map (fun p => if p = old then new else p) =
        r.phones := by
      have hcong : ∀ a ∈ r.phones, (if a = old then new else a) = a := by
        intro a ha
        rw [if_neg]
        intro hao
        exact hmem (hao ▸ ha)
      rw [List.map_congr_left hcong]
      simp
    simp [editPhone, hmap]

/-- C6 witness: editing an absent number is a no-op on a concrete
record, and editing a present one replaces it without validating the
replacement. -/
theorem edit_phone_replaces_matching_witness :
    editPhone ⟨"Alice", ["1112223333", "2224445555"], none⟩
        "9998887777" "0000000000" =
      ⟨"Alice", ["1112223333", "2224445555"], none⟩ ∧
    (editPhone ⟨"Alice", ["1112223333", "2224445555"], none⟩
        "1112223333" "not-a-phone").phones[0]? =
      some "not-a-phone" :=
  ⟨(edit_phone_replaces_matching _ _ _).2.2.2.2 (by decide),
   by rw [(edit_phone_replaces_matching
       ⟨"Alice", ["1112223333", "2224445555"], none⟩
       "1112223333" "not-a-phone").2.2.2.1 0]; decide⟩

/-- C9: every directory state reachable from the empty address book via
`add_record`, `find` and `delete` maps each key to a record whose name
equals that key, and its keys are unique. -/
theorem reachable_book_keys_mirror_names (b : Book) (h : Reachable b) :
    (∀ p ∈ b.data, p.2.name = p.1) ∧ (b.data.map Prod.fst).Nodup := by
  induction h with
  | empty => simp
  | add b r hb ih =>
    obtain ⟨hnames, hnodup⟩ := ih
    by_cases hk : b.data.any (fun p => p.1 = r.name) = true
    · constructor
      · intro p hp
        simp only [addRecord, dictSet, hk, if_true] at hp
        obtain ⟨q, hq, hqe⟩ := List.mem_map.mp hp
        by_cases hq1 : q.1 = r.name
        · rw [if_pos hq1] at hqe
          subst hqe
          rfl
        · rw [if_neg hq1] at hqe
          subst hqe
          exact hnames q hq
      · have hkeys : ((dictSet b.data r.name r).map Prod.fst) =
            b.data.map Prod.fst := by
          simp only [dictSet, hk, if_true, List.map_map]
          apply List.map_congr_left
          intro p hp
          by_cases hq1 : p.1 = r.name
          · simp [hq1]
          · simp [hq1]
        show ((dictSet b.data r.name r).map Prod.fst).Nodup
        rw [hkeys]
        exact hnodup
    · have hnotmem : r.name ∉ b.data.map Prod.fst := by
        intro hmem
        obtain ⟨q, hq, hqe⟩ := List.mem_map.mp hmem
        exact hk (List.any_eq_true.mpr ⟨q, hq, by simp [hqe]⟩)
      constructor
      · intro p hp
        simp only [addRecord, dictSet, hk, if_false] at hp
        rcases List.mem_append.mp hp with hin | hin
        · exact hnames p hin
        · rw [List.mem_singleton.mp hin]
      · have hk2 : b.data.any (fun p => p.1 = r.name) = false := by
          rwa [Bool.not_eq_true] at hk
        show ((dictSet b.data r.name r).map Prod.fst).Nodup
        simp only [dictSet, hk2, Bool.false_eq_true, if_false,
          List.map_append, List.map_cons, List.map_nil]
        rw [List.nodup_append]
        exact ⟨hnodup, List.nodup_singleton _,
          by intro a ha hb2; rw [List.mem_singleton.mp hb2] at ha
             exact hnotmem ha⟩
  | del b n hb ih =>
    obtain ⟨hnames, hnodup⟩ := ih
    constructor
    · intro p hp
      exact hnames p (List.mem_of_mem_filter hp)
    · exact hnodup.sublist ((List.filter_sublist b.data).map Prod.fst)

/-- C9 witness: the invariant holds for the concrete reachable state
obtained by adding one record to the empty book. -/
theorem reachable_book_keys_mirror_names_witness :
    (∀ p ∈ (addRecord ⟨[]⟩ (mkRecord "Alice")).data, p.2.name = p.1) ∧
    ((addRecord ⟨[]⟩ (mkRecord "Alice")).data.map Prod.fst).Nodup :=
  reachable_book_keys_mirror_names _ (Reachable.add _ _ Reachable.empty)

/-- The loop body of `get_upcoming_birthdays` reads only the name and
the birthday of a record. -/
theorem processRecord_congr (today : Date) (r1 r2 : Rec)
    (hn : r1.name = r2.name) (hb : r1.birthday = r2.birthday) :
    processRecord today r1 = processRecord today r2 := by
  unfold processRecord
  rw [hn, hb]

/-- C7 (amended): the result of `get_upcoming_birthdays` is determined
by the (name, birthday) sequence of the stored records together with the
date read from the ambient clock inside the method: two directories
agreeing on names and birthdays (whatever their keys or phone lists)
give identical results at the same ambient date. -/
theorem upcoming_determined_by_names_birthdays (b1 b2 : Book) (today : Date)
    (h : b1.data.map (fun p => (p.2.name, p.2.birthday)) =
      b2.data.map (fun p => (p.2.name, p.2.birthday))) :
    getUpcomingBirthdays b1 today = getUpcomingBirthdays b2 today := by
  unfold getUpcomingBirthdays
  obtain ⟨l1⟩ := b1
  obtain ⟨l2⟩ := b2
  induction l1 generalizing l2 with
  | nil =>
    cases l2 with
    | nil => rfl
    | cons hd tl => simp at h
  | cons hd tl ih =>
    cases l2 with
    | nil => simp at h
    | cons hd2 tl2 =>
      simp only [List.map_cons, List.cons.injEq] at h
      obtain ⟨hhd, htl⟩ := h
      rw [Prod.mk.injEq] at hhd
      obtain ⟨k1, r1⟩ := hd
      obtain ⟨k2, r2⟩ := hd2
      have hpr : processRecord today r1 = processRecord today r2 :=
        processRecord_congr today r1 r2 hhd.1 hhd.2
      unfold collectBirthdays
      rw [hpr, ih tl2 htl]

/-- C7 witness: two one-record directories with the same name and
birthday but different keys and phone lists produce the same result. -/
theorem upcoming_determined_by_names_birthdays_witness :
    getUpcomingBirthdays
        ⟨[("Alice", ⟨"Alice", ["1234567890"], some ⟨1985, 6, 15⟩⟩)]⟩
        ⟨2024, 6, 10⟩ =
      getUpcomingBirthdays
        ⟨[("Alicia", ⟨"Alice", [], some ⟨1985, 6, 15⟩⟩)]⟩
        ⟨2024, 6, 10⟩ :=
  upcoming_determined_by_names_birthdays _ _ _ (by decide)

/-- Every month has at least one day. -/
theorem daysInMonth_pos (y m : Nat) : 1 ≤ daysInMonth y m := by
  unfold daysInMonth
  split
  · split <;> omega
  · split <;> omega

/-- No month has more than 31 days. -/
theorem daysInMonth_le_31 (y m : Nat) : daysInMonth y m ≤ 31 := by
  unfold daysInMonth
  split
  · split <;> omega
  · split <;> omega

/-- Unfolding step for the day count before a month. -/
theorem daysBeforeMonth_succ (y m : Nat) (hm : 1 ≤ m) :
    daysBeforeMonth y (m + 1) = daysBeforeMonth y m + daysInMonth y m := by
  obtain ⟨k, rfl⟩ : ∃ k, m = k + 1 := ⟨m - 1, by omega⟩
  unfold daysBeforeMonth
  simp [List.range_succ]

/-- Day count before December: 334 in a common year, 335 in a leap
year. -/
theorem daysBeforeMonth_twelve (y : Nat) :
    daysBeforeMonth y 12 = if isLeapYear y then 335 else 334 := by
  unfold daysBeforeMonth daysInMonth
  cases h : isLeapYear y <;> simp [List.range_succ, h]

/-- Characterization of the leap-year test by remainders. -/
theorem isLeapYear_iff (y : Nat) :
    isLeapYear y = true ↔ (y % 4 = 0 ∧ (y % 100 ≠ 0 ∨ y % 400 = 0)) := by
  unfold isLeapYear
  simp

/-- Year-rollover step of the day-number computation: stepping from
December 31 of year `y` to January 1 of year `y + 1` advances the day
number by one. -/
theorem rataDie_year_rollover (y : Nat) (hy : 1 ≤ y) :
    365 * y + y / 4 + y / 400 - y / 100 + 1 =
    365 * (y - 1) + (y - 1) / 4 + (y - 1) / 400 - (y - 1) / 100 +
      (if isLeapYear y then 335 else 334) + 32 := by
  have hy1 : y - 1 + 1 = y := by omega
  have e4 : y / 4 = (y - 1) / 4 + (if y % 4 = 0 then 1 else 0) := by
    conv_lhs => rw [← hy1]
    rw [Nat.succ_div]
    congr 1
    simp [Nat.dvd_iff_mod_eq_zero, hy1]
  have e100 : y / 100 = (y - 1) / 100 + (if y % 100 = 0 then 1 else 0) := by
    conv_lhs => rw [← hy1]
    rw [Nat.succ_div]
    congr 1
    simp [Nat.dvd_iff_mod_eq_zero, hy1]
  have e400 : y / 400 = (y - 1) / 400 + (if y % 400 = 0 then 1 else 0) := by
    conv_lhs => rw [← hy1]
    rw [Nat.succ_div]
    congr 1
    simp [Nat.dvd_iff_mod_eq_zero, hy1]
  by_cases h4 : y % 4 = 0
  · rw [if_pos h4] at e4
    by_cases h100 : y % 100 = 0
    · rw [if_pos h100] at e100
      by_cases h400 : y % 400 = 0
      · rw [if_pos h400] at e400
        rw [if_pos ((isLeapYear_iff y).mpr ⟨h4, Or.inr h400⟩)]
        rw [e4, e100, e400]
        clear e4 e100 e400
        have hba : (y - 1) / 100 ≤ (y - 1) / 4 :=
          Nat.div_le_div_left (by norm_num) (by norm_num)
        omega
      · rw [if_neg h400] at e400
        have hl : isLeapYear y = false := by
          rw [Bool.eq_false_iff]
          intro hb
          rcases (isLeapYear_iff y).mp hb with ⟨hx4, hx⟩
          rcases hx with hx100 | hx400
          · exact hx100 h100
          · exact h400 hx400
        rw [if_neg (by rw [hl]; simp)]
        rw [e4, e100, e400]
        clear e4 e100 e400
        have hba : (y - 1) / 100 ≤ (y - 1) / 4 :=
          Nat.div_le_div_left (by norm_num) (by norm_num)
        omega
    · rw [if_neg h100] at e100
      have h400 : ¬y % 400 = 0 := by omega
      rw [if_neg h400] at e400
      rw [if_pos ((isLeapYear_iff y).mpr ⟨h4, Or.inl h100⟩)]
      rw [e4, e100, e400]
      clear e4 e100 e400
      have hba : (y - 1) / 100 ≤ (y - 1) / 4 :=
        Nat.div_le_div_left (by norm_num) (by norm_num)
      omega
  · rw [if_neg h4] at e4
    have h100 : ¬y % 100 = 0 := by omega
    have h400 : ¬y % 400 = 0 := by omega
    rw [if_neg h100] at e100
    rw [if_neg h400] at e400
    have hl : isLeapYear y = false := by
      rw [Bool.eq_false_iff]
      intro hb
      exact h4 ((isLeapYear_iff y).mp hb).1
    rw [if_neg (by rw [hl]; simp)]
    rw [e4, e100, e400]
    clear e4 e100 e400
    have hba : (y - 1) / 100 ≤ (y - 1) / 4 :=
      Nat.div_le_div_left (by norm_num) (by norm_num)
    omega

/-- The calendar successor advances the proleptic-Gregorian day number by
exactly one on well-formed dates. -/
theorem toRataDie_nextDay (d : Date) (h : dateOk d = true) :
    toRataDie (nextDay d) = toRataDie d + 1 := by
  obtain ⟨y, m, dd⟩ := d
  simp only [dateOk, Bool.and_eq_true, decide_eq_true_eq] at h
  obtain ⟨⟨⟨⟨hy, hm1⟩, hm12⟩, hd1⟩, hdle⟩ := h
  unfold nextDay
  by_cases h1 : dd < daysInMonth y m
  · rw [if_pos h1]
    unfold toRataDie
    dsimp only
    omega
  · have hdd : dd = daysInMonth y m := by
      omega
    rw [if_neg h1]
    by_cases h2 : m < 12
    · rw [if_pos h2]
      unfold toRataDie
      dsimp only
      rw [daysBeforeMonth_succ y m hm1]
      omega
    · have hm : m = 12 := by omega
      rw [if_neg h2]
      subst hm
      have hdd31 : dd = 31 := by
        rw [hdd]
        unfold daysInMonth
        norm_num
      subst hdd31
      unfold toRataDie
      dsimp only
      have hdbm1 : daysBeforeMonth (y + 1) 1 = 0 := by
        unfold daysBeforeMonth
        simp
      rw [hdbm1, daysBeforeMonth_twelve]
      simp only [Nat.add_sub_cancel]
      have hro := rataDie_year_rollover y hy
      omega

/-- The calendar successor preserves well-formedness. -/
theorem dateOk_nextDay (d : Date) (h : dateOk d = true) :
    dateOk (nextDay d) = true := by
  obtain ⟨y, m, dd⟩ := d
  simp only [dateOk, Bool.and_eq_true, decide_eq_true_eq] at h
  obtain ⟨⟨⟨⟨hy, hm1⟩, hm12⟩, hd1⟩, hdle⟩ := h
  unfold nextDay
  by_cases h1 : dd < daysInMonth y m
  · rw [if_pos h1]
    simp only [dateOk, Bool.and_eq_true, decide_eq_true_eq]
    exact ⟨⟨⟨⟨hy, hm1⟩, hm12⟩, by omega⟩, by omega⟩
  · rw [if_neg h1]
    by_cases h2 : m < 12
    · rw [if_pos h2]
      simp only [dateOk, Bool.and_eq_true, decide_eq_true_eq]
      exact ⟨⟨⟨⟨hy, by omega⟩, by omega⟩, by omega⟩,
        daysInMonth_pos y (m + 1)⟩
    · rw [if_neg h2]
      simp only [dateOk, Bool.and_eq_true, decide_eq_true_eq]
      exact ⟨⟨⟨⟨by omega, by omega⟩, by omega⟩, by omega⟩,
        daysInMonth_pos (y + 1) 1⟩

/-- Day addition preserves well-formedness. -/
theorem dateOk_addDays (d : Date) (n : Nat) (h : dateOk d = true) :
    dateOk (addDays d n) = true := by
  induction n with
  | zero => exact h
  | succ k ih => exact dateOk_nextDay _ ih

/-- Day addition advances the day number by the added count. -/
theorem toRataDie_addDays (d : Date) (n : Nat) (h : dateOk d = true) :
    toRataDie (addDays d n) = toRataDie d + n := by
  induction n with
  | zero => rfl
  | succ k ih =>
    show toRataDie (nextDay (addDays d k)) = toRataDie d + (k + 1)
    rw [toRataDie_nextDay _ (dateOk_addDays d k h), ih]
    omega

/-- Weekday arithmetic of day addition. -/
theorem weekday_addDays (d : Date) (n : Nat) (h : dateOk d = true) :
    weekday (addDays d n) = (weekday d + n) % 7 := by
  unfold weekday
  rw [toRataDie_addDays d n h]
  omega

/-- A triple the `datetime` constructor accepts is well-formed. -/
theorem validDate_dateOk (y m d : Nat) (h : validDate y m d = true) :
    dateOk ⟨y, m, d⟩ = true := by
  simp only [validDate, Bool.and_eq_true, decide_eq_true_eq] at h
  simp only [dateOk, Bool.and_eq_true, decide_eq_true_eq]
  exact ⟨⟨⟨⟨by omega, by omega⟩, by omega⟩, by omega⟩, by omega⟩

/-- C2: every entry emitted by the loop body of
`get_upcoming_birthdays` carries the record name and the
`strftime("%d.%m.%Y")` rendering of the congratulation date, which is
the occurrence shifted forward by `7 - weekday` days when the occurrence
falls on Saturday (weekday 5, shift by 2) or Sunday (weekday 6, shift by
1) — in both cases landing on a Monday (weekday 0) — and the unshifted
occurrence when its weekday is Monday through Friday. -/
theorem upcoming_weekend_shift (today : Date) (r : Rec) (b occ : Date)
    (entry : Entry)
    (hb : r.birthday = some b)
    (hro : replaceYear b today.year = Except.ok occ)
    (hpr : processRecord today r = Except.ok (some entry)) :
    entry.name = r.name ∧
    entry.congratulation_date =
      renderDMY
        (if weekday occ == 5 || weekday occ == 6 then
          addDays occ (7 - weekday occ)
        else occ) ∧
    (weekday occ = 5 →
      entry.congratulation_date = renderDMY (addDays occ 2) ∧
      weekday (addDays occ 2) = 0) ∧
    (weekday occ = 6 →
      entry.congratulation_date = renderDMY (addDays occ 1) ∧
      weekday (addDays occ 1) = 0) ∧
    (weekday occ ≤ 4 → entry.congratulation_date = renderDMY occ) := by
  have hv : validDate today.year b.month b.day = true := by
    by_contra hv
    unfold replaceYear at hro
    rw [if_neg hv] at hro
    exact Except.noConfusion hro
  have hocceq : occ = ⟨today.year, b.month, b.day⟩ := by
    unfold replaceYear at hro
    rw [if_pos hv] at hro
    injection hro with h
    exact h.symm
  have hok : dateOk occ = true := by
    rw [hocceq]
    exact validDate_dateOk _ _ _ hv
  unfold processRecord at hpr
  simp only [hb, hro] at hpr
  by_cases hw : (dateLE today occ && dateLE occ (addDays today 7)) = true
  · rw [if_pos hw] at hpr
    injection hpr with h1
    injection h1 with h2
    subst h2
    refine ⟨rfl, rfl, ?_, ?_, ?_⟩
    · intro h5
      refine ⟨?_, ?_⟩
      · simp [h5]
      · rw [weekday_addDays occ 2 hok, h5]
    · intro h6
      refine ⟨?_, ?_⟩
      · simp [h6]
      · rw [weekday_addDays occ 1 hok, h6]
    · intro hle
      have hne5 : weekday occ ≠ 5 := by omega
      have hne6 : weekday occ ≠ 6 := by omega
      simp [hne5, hne6]
  · rw [if_neg hw] at hpr
    injection hpr with h1
    exact Option.noConfusion h1

/-- C2 witness: scenario B of the specification: with today = 2024-06-10
(a Monday) and a contact whose birthday is 15.06.1985, the this-year
occurrence 2024-06-15 is a Saturday (weekday 5) and the emitted
congratulation date is its two-day shift, Monday 17.06.2024. -/
theorem upcoming_weekend_shift_witness :
    weekday (⟨2024, 6, 15⟩ : Date) = 5 ∧
    (⟨"Alice", "17.06.2024"⟩ : Entry).congratulation_date =
      renderDMY (addDays ⟨2024, 6, 15⟩ 2) ∧
    weekday (addDays (⟨2024, 6, 15⟩ : Date) 2) = 0 :=
  ⟨by decide,
   (upcoming_weekend_shift ⟨2024, 6, 10⟩ ⟨"Alice", [], some ⟨1985, 6, 15⟩⟩
      ⟨1985, 6, 15⟩ ⟨2024, 6, 15⟩ ⟨"Alice", "17.06.2024"⟩ rfl (by decide)
      (by decide)).2.2.1 (by decide)⟩

/-- Characters produced by `digitChar` on one decimal digit are ASCII
digits. -/
theorem digitChar_isDigit (k : Nat) (h : k < 10) :
    (digitChar k).isDigit = true := by
  revert k
  decide

/-- Reading back the character produced by `digitChar`. -/
theorem digitVal_digitChar (k : Nat) (h : k < 10) :
    digitVal (digitChar k) = k := by
  revert k
  decide

/-- Splitting a digit run followed by a dot. -/
theorem takeWhile_digit_run (run rest : List Char)
    (h : run.all Char.isDigit = true) :
    (run ++ '.' :: rest).takeWhile Char.isDigit = run ∧
    (run ++ '.' :: rest).dropWhile Char.isDigit = '.' :: rest := by
  have hdot : Char.isDigit '.' = false := by decide
  induction run with
  | nil =>
    constructor
    · simp [List.takeWhile_cons, hdot]
    · simp [List.dropWhile_cons, hdot]
  | cons c cs ih =>
    simp only [List.all_cons, Bool.and_eq_true] at h
    obtain ⟨ih1, ih2⟩ := ih h.2
    constructor
    · simp [List.takeWhile_cons, h.1, ih1]
    · simp [List.dropWhile_cons, h.1, ih2]

/-- Value of a zero-padded two-digit rendering. -/
theorem digitsVal_pad2 (n : Nat) (h : n < 100) : digitsVal (pad2 n) = n := by
  have h1 := digitVal_digitChar (n / 10) (by omega)
  have h2 := digitVal_digitChar (n % 10) (by omega)
  simp only [digitsVal, pad2, List.foldl_cons, List.foldl_nil, h1, h2]
  omega

/-- A zero-padded two-digit rendering consists of digits. -/
theorem pad2_all_digits (n : Nat) (h : n < 100) :
    (pad2 n).all Char.isDigit = true := by
  have h1 := digitChar_isDigit (n / 10) (by omega)
  have h2 := digitChar_isDigit (n % 10) (by omega)
  simp [pad2, h1, h2]

/-- The day/month field matcher accepts a digit run followed by a dot
when the run has one or two digits and its value is in range, consuming
exactly the run. -/
theorem parseNum2_run (hi : Nat) (run rest : List Char)
    (hall : run.all Char.isDigit = true)
    (hlen : run.length = 1 ∨ run.length = 2)
    (h1 : 1 ≤ digitsVal run) (h2 : digitsVal run ≤ hi) :
    parseNum2 hi (run ++ '.' :: rest) = some (digitsVal run, '.' :: rest) := by
  obtain ⟨ht, hd⟩ := takeWhile_digit_run run rest hall
  unfold parseNum2
  simp only [ht, hd]
  have hc1 : (run.length = 1 || run.length = 2) = true := by
    rcases hlen with h | h <;> simp [h]
  rw [if_pos hc1]
  have hc2 : (1 ≤ digitsVal run && digitsVal run ≤ hi) = true := by
    simp only [Bool.and_eq_true, decide_eq_true_eq]
    exact ⟨h1, h2⟩
  rw [if_pos hc2]

/-- For years with four digits the glibc `%Y` rendering is the four
decimal digits. -/
theorem yearChars_large (y : Nat) (h1 : 1000 ≤ y) (h2 : y ≤ 9999) :
    yearChars y = [digitChar (y / 1000), digitChar (y / 100 % 10),
      digitChar (y / 10 % 10), digitChar (y % 10)] := by
  unfold yearChars
  rw [if_neg (by omega), if_neg (by omega), if_neg (by omega)]

/-- The year matcher reads back a four-digit year rendering. -/
theorem parseYear4_yearChars (y : Nat) (h1 : 1000 ≤ y) (h2 : y ≤ 9999) :
    parseYear4 (yearChars y) = some y := by
  rw [yearChars_large y h1 h2]
  have ha := digitChar_isDigit (y / 1000) (by omega)
  have hb := digitChar_isDigit (y / 100 % 10) (by omega)
  have hc := digitChar_isDigit (y / 10 % 10) (by omega)
  have hd := digitChar_isDigit (y % 10) (by omega)
  have va := digitVal_digitChar (y / 1000) (by omega)
  have vb := digitVal_digitChar (y / 100 % 10) (by omega)
  have vc := digitVal_digitChar (y / 10 % 10) (by omega)
  have vd := digitVal_digitChar (y % 10) (by omega)
  simp only [parseYear4, ha, hb, hc, hd, Bool.and_self, if_true]
  simp only [digitsVal, List.foldl_cons, List.foldl_nil, va, vb, vc, vd]
  congr 1
  omega

/-- The embedded `strptime` parser reads back the embedded `strftime`
rendering of a date whose year has four digits. -/
theorem parseDMY_renderDMY (y m d : Nat) (hm1 : 1 ≤ m) (hm2 : m ≤ 12)
    (hd1 : 1 ≤ d) (hd2 : d ≤ 31) (hy1 : 1000 ≤ y) (hy2 : y ≤ 9999) :
    parseDMY (renderDMY ⟨y, m, d⟩) = some (d, m, y) := by
  have e1 := parseNum2_run 31 (pad2 d) (pad2 m ++ '.' :: yearChars y)
    (pad2_all_digits d (by omega)) (Or.inr rfl)
    (by rw [digitsVal_pad2 d (by omega)]; omega)
    (by rw [digitsVal_pad2 d (by omega)]; omega)
  rw [digitsVal_pad2 d (by omega)] at e1
  have e2 := parseNum2_run 12 (pad2 m) (yearChars y)
    (pad2_all_digits m (by omega)) (Or.inr rfl)
    (by rw [digitsVal_pad2 m (by omega)]; omega)
    (by rw [digitsVal_pad2 m (by omega)]; omega)
  rw [digitsVal_pad2 m (by omega)] at e2
  unfold parseDMY renderDMY
  dsimp only
  simp only [List.append_assoc, List.cons_append]
  rw [e1]
  dsimp only
  rw [if_pos rfl]
  rw [e2]
  dsimp only
  rw [if_pos rfl]
  rw [parseYear4_yearChars y hy1 hy2]

/-- C5 (amended): for every valid date whose four-digit year has no
leading zero (1000 <= year <= 9999), adding the canonical DD.MM.YYYY
rendering as a birthday and reading it back returns exactly the same
string.  (For years below 1000 the glibc `%Y` rendering drops the
leading zeros and the round trip fails, as the counterexample shows.) -/
theorem birthday_roundtrip_year_ge_1000 (r : Rec) (y m d : Nat)
    (hv : validDate y m d = true) (hy : 1000 ≤ y) :
    getBirthday (addBirthdayState r (renderDMY ⟨y, m, d⟩)).1 =
      some (renderDMY ⟨y, m, d⟩) := by
  have hv2 := hv
  simp only [validDate, Bool.and_eq_true, decide_eq_true_eq] at hv2
  obtain ⟨⟨⟨⟨⟨hy1, hy2⟩, hm1⟩, hm2⟩, hd1⟩, hd2⟩ := hv2
  have hd31 : d ≤ 31 := le_trans hd2 (daysInMonth_le_31 y m)
  have hp := parseDMY_renderDMY y m d hm1 hm2 hd1 hd31 hy hy2
  unfold addBirthdayState mkBirthday
  rw [hp]
  dsimp only
  rw [if_pos hv]
  dsimp only
  unfold getBirthday
  simp

/-- C5 witness: the round trip holds at the concrete canonical string
"03.12.1990". -/
theorem birthday_roundtrip_year_ge_1000_witness :
    getBirthday (addBirthdayState (mkRecord "Alice")
        (renderDMY ⟨1990, 12, 3⟩)).1 =
      some (renderDMY ⟨1990, 12, 3⟩) ∧
    renderDMY ⟨1990, 12, 3⟩ = "03.12.1990" :=
  ⟨birthday_roundtrip_year_ge_1000 (mkRecord "Alice") 1990 12 3
      (by decide) (by decide),
   by decide⟩

/-- The digit run extracted by `takeWhile` consists of digits. -/
theorem all_takeWhile_digit (l : List Char) :
    (l.takeWhile Char.isDigit).all Char.isDigit = true := by
  induction l with
  | nil => rfl
  | cons c cs ih =>
    by_cases hc : Char.isDigit c = true
    · simp [List.takeWhile_cons, hc, ih]
    · simp [List.takeWhile_cons, hc]

/-- Inversion of the day/month field matcher: on success the input
splits into its maximal digit run (of one or two digits, evaluating to
the returned in-range value) and the returned remainder. -/
theorem parseNum2_inv (hi : Nat) (l : List Char) (v : Nat) (rest : List Char)
    (h : parseNum2 hi l = some (v, rest)) :
    l = l.takeWhile Char.isDigit ++ rest ∧
    ((l.takeWhile Char.isDigit).length = 1 ∨
      (l.takeWhile Char.isDigit).length = 2) ∧
    digitsVal (l.takeWhile Char.isDigit) = v ∧ 1 ≤ v ∧ v ≤ hi := by
  unfold parseNum2 at h
  dsimp only at h
  by_cases hc1 : ((l.takeWhile Char.isDigit).length = 1 ||
      (l.takeWhile Char.isDigit).length = 2) = true
  · rw [if_pos hc1] at h
    by_cases hc2 : (1 ≤ digitsVal (l.takeWhile Char.isDigit) &&
        digitsVal (l.takeWhile Char.isDigit) ≤ hi) = true
    · rw [if_pos hc2] at h
      injection h with h2
      rw [Prod.mk.injEq] at h2
      obtain ⟨hv, hr⟩ := h2
      subst hv
      subst hr
      simp only [Bool.or_eq_true, decide_eq_true_eq] at hc1
      simp only [Bool.and_eq_true, decide_eq_true_eq] at hc2
      exact ⟨(List.takeWhile_append_dropWhile Char.isDigit l).symm,
        hc1, rfl, hc2.1, hc2.2⟩
    · rw [if_neg hc2] at h
      exact Option.noConfusion h
  · rw [if_neg hc1] at h
    exact Option.noConfusion h

/-- Inversion of the year matcher: on success the input is exactly four
digits evaluating to the returned year. -/
theorem parseYear4_inv (l : List Char) (y : Nat) (h : parseYear4 l = some y) :
    l.all Char.isDigit = true ∧ l.length = 4 ∧ digitsVal l = y := by
  rcases l with _ | ⟨a, _ | ⟨b, _ | ⟨c, _ | ⟨d, _ | ⟨e, rest⟩⟩⟩⟩⟩
  · rw [show parseYear4 [] = none from rfl] at h
    exact Option.noConfusion h
  · rw [show parseYear4 [a] = none from rfl] at h
    exact Option.noConfusion h
  · rw [show parseYear4 [a, b] = none from rfl] at h
    exact Option.noConfusion h
  · rw [show parseYear4 [a, b, c] = none from rfl] at h
    exact Option.noConfusion h
  · simp only [parseYear4] at h
    by_cases hc : (a.isDigit && b.isDigit && c.isDigit && d.isDigit) = true
    · rw [if_pos hc] at h
      injection h with h2
      simp only [Bool.and_eq_true] at hc
      refine ⟨by simp [hc.1.1.1, hc.1.1.2, hc.1.2, hc.2], rfl, h2⟩
    · rw [if_neg hc] at h
      exact Option.noConfusion h
  · rw [show parseYear4 (a :: b :: c :: d :: e :: rest) = none from rfl] at h
    exact Option.noConfusion h

/-- Completeness of the `strptime` inversion: a successful parse means
the input had the day.month.year shape with one-or-two-digit day and
month fields and a four-digit year field. -/
theorem parseDMY_inv (s : String) (d m y : Nat)
    (h : parseDMY s = some (d, m, y)) : isDMYtext s d m y := by
  unfold parseDMY at h
  cases hp1 : parseNum2 31 s.data with
  | none => rw [hp1] at h; simp at h
  | some p1 =>
    obtain ⟨d0, rest1⟩ := p1
    rw [hp1] at h
    dsimp only at h
    cases rest1 with
    | nil => exact Option.noConfusion h
    | cons c1 rest2 =>
      dsimp only at h
      by_cases hc1 : c1 = '.'
      · rw [if_pos hc1] at h
        subst hc1
        cases hp2 : parseNum2 12 rest2 with
        | none => rw [hp2] at h; simp at h
        | some p2 =>
          obtain ⟨m0, rest3⟩ := p2
          rw [hp2] at h
          dsimp only at h
          cases rest3 with
          | nil => exact Option.noConfusion h
          | cons c2 rest4 =>
            dsimp only at h
            by_cases hc2 : c2 = '.'
            · rw [if_pos hc2] at h
              subst hc2
              cases hp3 : parseYear4 rest4 with
              | none => rw [hp3] at h; simp at h
              | some y0 =>
                rw [hp3] at h
                dsimp only at h
                injection h with h2
                rw [Prod.mk.injEq] at h2
                obtain ⟨hd0, h3⟩ := h2
                rw [Prod.mk.injEq] at h3
                obtain ⟨hm0, hy0⟩ := h3
                subst hd0
                subst hm0
                subst hy0
                obtain ⟨e1, hl1, hv1, _, _⟩ :=
                  parseNum2_inv 31 s.data d0 ('.' :: rest2) hp1
                obtain ⟨e2, hl2, hv2, _, _⟩ :=
                  parseNum2_inv 12 rest2 m0 ('.' :: rest4) hp2
                obtain ⟨hall3, hlen3, hv3⟩ := parseYear4_inv rest4 y0 hp3
                refine ⟨s.data.takeWhile Char.isDigit,
                  rest2.takeWhile Char.isDigit, rest4, ?_,
                  all_takeWhile_digit s.data, all_takeWhile_digit rest2,
                  hall3, hl1, hl2, hlen3, hv1, hv2, hv3⟩
                conv_lhs => rw [e1]
                conv_lhs => rw [e2]
                simp [List.append_assoc, List.cons_append]
            · rw [if_neg hc2] at h
              exact Option.noConfusion h
      · rw [if_neg hc1] at h
        exact Option.noConfusion h

/-- Soundness of the `strptime` inversion: an input of day.month.year
shape with in-range day and month parses to its field values. -/
theorem parseDMY_complete (s : String) (d m y : Nat) (ht : isDMYtext s d m y)
    (hd1 : 1 ≤ d) (hd31 : d ≤ 31) (hm1 : 1 ≤ m) (hm12 : m ≤ 12) :
    parseDMY s = some (d, m, y) := by
  obtain ⟨dcs, mcs, ycs, hs, hdall, hmall, hyall, hdlen, hmlen, hylen,
    hdval, hmval, hyval⟩ := ht
  have hy4 : parseYear4 ycs = some y := by
    rcases ycs with _ | ⟨a, _ | ⟨b, _ | ⟨c, _ | ⟨e, _ | ⟨f, rest⟩⟩⟩⟩⟩ <;>
      simp at hylen
    simp only [List.all_cons, List.all_nil, Bool.and_eq_true] at hyall
    obtain ⟨ha, hb, hc, he, _⟩ := hyall
    simp only [parseYear4]
    rw [if_pos (by simp [ha, hb, hc, he])]
    rw [hyval]
  have e1 := parseNum2_run 31 dcs (mcs ++ '.' :: ycs) hdall hdlen
    (by rw [hdval]; omega) (by rw [hdval]; omega)
  rw [hdval] at e1
  have e2 := parseNum2_run 12 mcs ycs hmall hmlen
    (by rw [hmval]; omega) (by rw [hmval]; omega)
  rw [hmval] at e2
  unfold parseDMY
  rw [hs]
  simp only [List.append_assoc, List.cons_append]
  rw [e1]
  dsimp only
  rw [if_pos rfl]
  rw [e2]
  dsimp only
  rw [if_pos rfl]
  rw [hy4]

/-- C4 (amended): constructing a Birthday from `s` succeeds, yielding the
date (y, m, d), exactly when `s` has the shape day.month.year with a one-
or two-digit day field, a one- or two-digit month field and a four-digit
year field (`isDMYtext`), and (y, m, d) is a real calendar date accepted
by the `datetime` constructor; every failing construction raises the
message "Invalid date format. Use DD.MM.YYYY". -/
theorem birthday_format_characterization (s : String) :
    (∀ y m d : Nat, mkBirthday s = Except.ok ⟨y, m, d⟩ ↔
      (isDMYtext s d m y ∧ validDate y m d = true)) ∧
    ((∀ dt : Date, mkBirthday s ≠ Except.ok dt) →
      mkBirthday s = Except.error "Invalid date format. Use DD.MM.YYYY") := by
  constructor
  · intro y m d
    constructor
    · intro h
      unfold mkBirthday at h
      cases hp : parseDMY s with
      | none => rw [hp] at h; simp at h
      | some t =>
        obtain ⟨d0, m0, y0⟩ := t
        rw [hp] at h
        dsimp only at h
        by_cases hv : validDate y0 m0 d0 = true
        · rw [if_pos hv] at h
          injection h with h2
          injection h2 with hy0 hm0 hd0
          subst hy0
          subst hm0
          subst hd0
          exact ⟨parseDMY_inv s d0 m0 y0 hp, hv⟩
        · rw [if_neg hv] at h
          simp at h
    · rintro ⟨ht, hv⟩
      have hvp := hv
      simp only [validDate, Bool.and_eq_true, decide_eq_true_eq] at hvp
      obtain ⟨⟨⟨⟨⟨_, _⟩, hm1⟩, hm12⟩, hd1⟩, hd2⟩ := hvp
      have hd31 : d ≤ 31 := le_trans hd2 (daysInMonth_le_31 y m)
      have hp := parseDMY_complete s d m y ht hd1 hd31 hm1 hm12
      unfold mkBirthday
      rw [hp]
      dsimp only
      rw [if_pos hv]
  · intro hne
    unfold mkBirthday
    cases hp : parseDMY s with
    | none => rfl
    | some t =>
      obtain ⟨d0, m0, y0⟩ := t
      dsimp only
      by_cases hv : validDate y0 m0 d0 = true
      · have hok : mkBirthday s = Except.ok ⟨y0, m0, d0⟩ := by
          unfold mkBirthday
          rw [hp]
          dsimp only
          rw [if_pos hv]
        exact absurd hok (hne _)
      · rw [if_neg hv]

/-- C4 witness: the characterization applied at the well-formed string
"15.06.1985" and at "31.04.2020", which has the right shape but is not a
real date (April has 30 days). -/
theorem birthday_format_characterization_witness :
    mkBirthday "15.06.1985" = Except.ok ⟨1985, 6, 15⟩ ∧
    mkBirthday "31.04.2020" =
      Except.error "Invalid date format. Use DD.MM.YYYY" :=
  ⟨((birthday_format_characterization "15.06.1985").1 1985 6 15).mpr
    ⟨⟨['1', '5'], ['0', '6'], ['1', '9', '8', '5'], by decide, by decide,
      by decide, by decide, by decide, by decide, by decide, by decide,
      by decide, by decide⟩, by decide⟩,
   (birthday_format_characterization "31.04.2020").2 (by
    intro dt h
    rw [show mkBirthday "31.04.2020" =
      Except.error "Invalid date format. Use DD.MM.YYYY" from by decide] at h
    exact Except.noConfusion h)⟩
